import Mathlib

/-!
# Verification of the likes-running cache layer (`scripts/cache.py`)

Shallow embedding of the date-range-aware cache: the interval merger
(`LikesCache._merge_ranges`), the gap detector (`LikesCache._detect_gaps`),
the per-entity stores with merge-insert (`_merge_activities`, `_merge_plans`,
`_merge_feedback`), the cache-aware fetch orchestrators (`fetch_activities`,
`fetch_plans`, `fetch_feedback`), the backfill scheduler (`backfill`) and the
clear operation (`clear`).

Modelling conventions:
* Calendar-day strings `YYYY-MM-DD` are totally ordered by lexicographic
  comparison, which agrees with chronological order; the interval functions
  are embedded over an arbitrary `LinearOrder`, and the store/orchestrator
  layer instantiates dates as `Int` day numbers (days since the epoch) and
  timestamps as `Int` seconds, with `86400` seconds per day, so that the
  source's `datetime` arithmetic becomes integer arithmetic.
* Python's stable `sorted` is modelled by `List.mergeSort` (also stable).
* Python dicts are modelled by insertion-ordered association lists:
  assignment to an existing key updates in place, a new key is appended.
* Disk persistence (`_load`/`_save`) is elided: a store is passed in and
  returned as an explicit value, which matches the in-process behaviour the
  claims are about.
* Network calls are modelled as explicit `Except Unit` outcomes supplied by
  the caller: `.error ()` stands for `requests.exceptions.RequestException`.
* A date range `[s, e]` covers the day-span from `s` inclusive to `e`
  exclusive when membership and overlap are tested: this is the semantics
  under which the gap detector's cursor walk is coverage-complete and under
  which a gap ending at `e` and a fetched range starting at `e` (which share
  only the boundary endpoint) do not overlap.
-/

namespace LikesCache

/-! ## Interval Merger and Gap Detector (generic over a linear date order) -/

variable {α : Type} [LinearOrder α]

/-- Python's stable `sorted(ranges, key=lambda r: r[0])`. -/
def sortRanges (ranges : List (α × α)) : List (α × α) :=
  ranges.mergeSort (fun a b => decide (a.1 ≤ b.1))

/-- The accumulation loop of `LikesCache._merge_ranges`: `last` is the
current tail interval `merged[-1]`; an incoming `[s, e]` with
`s <= merged[-1][1]` is absorbed (`merged[-1][1] = max(merged[-1][1], e)`),
otherwise it starts a new output interval. -/
def mergeLoop : α × α → List (α × α) → List (α × α)
  | last, [] => [last]
  | last, (s, e) :: rest =>
    if s ≤ last.2 then mergeLoop (last.1, max last.2 e) rest
    else last :: mergeLoop (s, e) rest

/-- `LikesCache._merge_ranges`: sort by start, then fold overlapping or
touching intervals together. -/
def mergeRanges (ranges : List (α × α)) : List (α × α) :=
  match sortRanges ranges with
  | [] => []
  | r :: rest => mergeLoop r rest

/-- The walk of `LikesCache._detect_gaps` over the ranges sorted by start:
for each `[rs, re]` starting after the cursor, emit `[cursor, min(rs, end)]`
when non-empty, then advance the cursor to `max(cursor, re)`; a trailing gap
`[cursor, end]` is emitted when the cursor never reached `end`. -/
def gapsLoop (end_ : α) : α → List (α × α) → List (α × α)
  | cursor, [] => if cursor < end_ then [(cursor, end_)] else []
  | cursor, (rs, re) :: rest =>
    (if rs > cursor then
       (if cursor < min rs end_ then [(cursor, min rs end_)] else [])
     else []) ++ gapsLoop end_ (max cursor re) rest

/-- `LikesCache._detect_gaps`: no fetched ranges means the whole request is
one gap; otherwise walk the sorted ranges with a cursor. -/
def detectGaps (ranges : List (α × α)) (start end_ : α) : List (α × α) :=
  if ranges.isEmpty then [(start, end_)]
  else gapsLoop end_ start (sortRanges ranges)

/-- A range `[s, e]` covers day `x` when `s ≤ x < e` (day-span semantics:
the right endpoint day belongs to the following range). -/
def covers (r : α × α) (x : α) : Prop := r.1 ≤ x ∧ x < r.2

instance (r : α × α) (x : α) : Decidable (covers r x) := by
  unfold covers; infer_instance

/-- The merged-ranges invariant: sorted by start, and each interval ends
strictly before the next begins (no overlap, no touching). -/
def RangesMerged (l : List (α × α)) : Prop :=
  l.Pairwise (fun a b => a.1 ≤ b.1 ∧ a.2 < b.1)

instance (l : List (α × α)) : Decidable (RangesMerged l) := by
  unfold RangesMerged; infer_instance

/-! ## Constants of `cache.py` -/

/-- Seconds per day: `datetime.fromtimestamp(ts)` falls on the midnight of
day `d` exactly when `ts = 86400 * d`. -/
def SECS_PER_DAY : Int := 86400

def FROZEN_DAYS : Int := 7

def CHUNK_DAYS : Nat := 30

def PLAN_CHUNK_DAYS : Nat := 42

def BACKFILL_EMPTY_STOP : Nat := 6

/-! ## Entity records and stores -/

/-- An activity record, reduced to the fields the cache logic reads. `id` is
the already-stringified activity id (`str(item["id"])`), absent when the item
has no `id` key; `sign_date` is a Unix timestamp; `payload` stands for all
pass-through fields so that structurally different records stay distinct. -/
structure ActivityRec where
  id : Option String
  sign_date : Option Int
  cached_at : Option String := none
  payload : Nat := 0
deriving DecidableEq

/-- A plan record: `start` is the plan's start date as a day number, `none`
for a missing or empty start string. -/
structure PlanRec where
  start : Option Int
  cached_at : Option String := none
  payload : Nat := 0
deriving DecidableEq

/-- A feedback record: `created_time` is a Unix timestamp. -/
structure FeedbackRec where
  created_time : Option Int
  cached_at : Option String := none
  payload : Nat := 0
deriving DecidableEq

/-- One per-entity JSON document:
`{"records": {key: record}, "_fetched_ranges": [[s, e], ...]}`. The records
mapping is a Python dict, modelled as an insertion-ordered association
list. -/
structure Store (κ ρ : Type) where
  records : List (κ × ρ)
  fetched_ranges : List (Int × Int)
deriving DecidableEq

/-- Python dict assignment `d[k] = v`: overwrite in place when the key
exists, append otherwise. -/
def dictInsert {κ ρ : Type} [DecidableEq κ] (d : List (κ × ρ)) (k : κ) (v : ρ) :
    List (κ × ρ) :=
  if d.any (fun kv => decide (kv.1 = k)) then
    d.map (fun kv => if kv.1 = k then (k, v) else kv)
  else d ++ [(k, v)]

/-- `LikesCache._record_fetched_range`: append the new range, then re-merge. -/
def recordFetchedRange {κ ρ : Type} (store : Store κ ρ) (s e : Int) : Store κ ρ :=
  { store with fetched_ranges := mergeRanges (store.fetched_ranges ++ [(s, e)]) }

/-! ## Merge-insert helpers -/

/-- `str(item.get("id", ""))`: the merge key of an activity; both a missing
and an empty id give the empty string. -/
def activityKey (a : ActivityRec) : String := a.id.getD ""

/-- `item.get("start", "")` viewed as a merge key; `none` models both a
missing and an empty start. -/
def planKeyOpt (p : PlanRec) : Option Int := p.start

/-- `str(item.get("created_time", ""))` viewed as a merge key; `none` models
a missing value. -/
def feedbackKeyOpt (f : FeedbackRec) : Option Int := f.created_time

/-- `LikesCache._merge_activities`: skip items without an id, stamp
`_cached_at`, insert-or-overwrite keyed by the id. -/
def mergeActivities (store : Store String ActivityRec) (now : String)
    (items : List ActivityRec) : Store String ActivityRec :=
  { store with records := items.foldl (fun recs item =>
      if activityKey item = "" then recs
      else dictInsert recs (activityKey item)
        { item with cached_at := some now }) store.records }

/-- `LikesCache._merge_plans`: skip items without a start. -/
def mergePlans (store : Store Int PlanRec) (now : String)
    (items : List PlanRec) : Store Int PlanRec :=
  { store with records := items.foldl (fun recs item =>
      match planKeyOpt item with
      | none => recs
      | some key => dictInsert recs key
          { item with cached_at := some now }) store.records }

/-- `LikesCache._merge_feedback`: skip items without a created_time. -/
def mergeFeedback (store : Store Int FeedbackRec) (now : String)
    (items : List FeedbackRec) : Store Int FeedbackRec :=
  { store with records := items.foldl (fun recs item =>
      match feedbackKeyOpt item with
      | none => recs
      | some key => dictInsert recs key
          { item with cached_at := some now }) store.records }

/-! ## Query helpers -/

/-- `LikesCache._get_cached_activities`: records whose `sign_date` timestamp
lies in `[start_dt, end_dt + 1 day]` (both bounds inclusive). -/
def getCachedActivities (store : Store String ActivityRec) (s e : Int) :
    List ActivityRec :=
  (store.records.map Prod.snd).filter (fun rec =>
    match rec.sign_date with
    | none => false
    | some sd => decide (SECS_PER_DAY * s ≤ sd) && decide (sd ≤ SECS_PER_DAY * (e + 1)))

/-- `LikesCache._get_cached_plans`: records whose non-empty `start` date lies
in `[start, end]` (string comparison, i.e. day comparison). -/
def getCachedPlans (store : Store Int PlanRec) (s e : Int) : List PlanRec :=
  (store.records.map Prod.snd).filter (fun rec =>
    match rec.start with
    | none => false
    | some d => decide (s ≤ d) && decide (d ≤ e))

/-- `LikesCache._get_cached_feedback`. -/
def getCachedFeedback (store : Store Int FeedbackRec) (s e : Int) :
    List FeedbackRec :=
  (store.records.map Prod.snd).filter (fun rec =>
    match rec.created_time with
    | none => false
    | some ct => decide (SECS_PER_DAY * s ≤ ct) && decide (ct ≤ SECS_PER_DAY * (e + 1)))

/-! ## API responses -/

/-- The activities API response `{"total": ..., "list": [...]}`. -/
structure ActResp where
  total : Nat
  list : List ActivityRec
deriving DecidableEq

/-- The plans/feedback API response `{"total": ..., "rows": [...]}`. -/
structure RowsResp (ρ : Type) where
  total : Nat
  rows : List ρ
deriving DecidableEq

/-! ## Fetch orchestrator: activities -/

/-- `str(r.get("id"))` as used by the in-loop duplicate checks: a missing id
stringifies to `"None"`. -/
def actIdStr (r : ActivityRec) : String :=
  match r.id with
  | some s => s
  | none => "None"

/-- `str(r.get("created_time"))`. -/
def fbKeyStr (r : FeedbackRec) : String :=
  match r.created_time with
  | some ct => toString ct
  | none => "None"

/-- One iteration of the frozen-gap loop of `fetch_activities`: call the API
for the gap; on success merge the items, record the gap as fetched and
append the items not already present by id; on `RequestException` log a
warning and keep the state unchanged. -/
def actGapStep (api : Int → Int → Nat → Except Unit ActResp) (now : String)
    (st : Store String ActivityRec × List ActivityRec) (gap : Int × Int) :
    Store String ActivityRec × List ActivityRec :=
  match api gap.1 gap.2 100 with
  | .ok data =>
    let items := data.list
    let store1 := mergeActivities st.1 now items
    let store2 := recordFetchedRange store1 gap.1 gap.2
    let existing := st.2.map actIdStr
    (store2, st.2 ++ items.filter (fun item => decide (actIdStr item ∉ existing)))
  | .error _ => st

/-- The dedup key of the final `fetch_activities` dedup:
`str(r.get("id", id(r)))`. A present id gives its string; an absent id falls
back to the CPython object identity, which is distinct for every element of
the list, modelled by the element's position. -/
def actDedupKey (ir : Nat × ActivityRec) : Sum String Nat :=
  match ir.2.id with
  | some s => Sum.inl s
  | none => Sum.inr ir.1

/-- The dedup key of the final `fetch_feedback` dedup:
`str(r.get("created_time", id(r)))`. Decimal strings of distinct integers
are distinct, so the stringified timestamp is kept as the integer itself;
an absent key falls back to the per-object identity, modelled by the
element's position. -/
def fbDedupKey (ir : Nat × FeedbackRec) : Sum Int Nat :=
  match ir.2.created_time with
  | some ct => Sum.inl ct
  | none => Sum.inr ir.1

/-- The `seen`-dict loop: `if rid not in seen: seen[rid] = r`, walked over a
keyed list; first occurrence of each key wins. -/
def seenGo {κ ρ : Type} [DecidableEq κ] (seen : List (κ × ρ)) :
    List (κ × ρ) → List (κ × ρ)
  | [] => seen
  | kr :: rest =>
    if seen.any (fun p => decide (p.1 = kr.1)) then seenGo seen rest
    else seenGo (seen ++ [kr]) rest

/-- Lines 245–249 of `cache.py`: dedup by id with object-identity fallback,
keeping the first occurrence (dict insertion order). -/
def dedupActivities (l : List ActivityRec) : List ActivityRec :=
  (seenGo [] (l.enum.map (fun ir => (actDedupKey ir, ir.2)))).map Prod.snd

/-- Lines 336–340 of `cache.py`: dedup by created_time, first wins. -/
def dedupFeedback (l : List FeedbackRec) : List FeedbackRec :=
  (seenGo [] (l.enum.map (fun ir => (fbDedupKey ir, ir.2)))).map Prod.snd

/-- Python's `sorted(l, key=key, reverse=True)`: stable descending sort. -/
def sortDescBy {ρ : Type} (key : ρ → Int) (l : List ρ) : List ρ :=
  l.mergeSort (fun a b => decide (key b ≤ key a))

/-- `int(r.get("sign_date", 0))`. -/
def actSortKey (r : ActivityRec) : Int := r.sign_date.getD 0

/-- `int(r.get("created_time", 0))`. -/
def fbSortKey (r : FeedbackRec) : Int := r.created_time.getD 0

/-- `p.get("start", "")` as a sort key: a missing/empty start (`⊥`) sorts
before every date. -/
def planSortKey (p : PlanRec) : WithBot Int :=
  match p.start with
  | some d => (d : WithBot Int)
  | none => ⊥

/-- Lines 244–252 of `cache.py`: dedup by id, sort descending by
`sign_date`, apply the optional limit (`limit = 0` models a falsy limit,
meaning unlimited). -/
def finalizeActivities (store : Store String ActivityRec)
    (all_records : List ActivityRec) (limit : Nat) :
    Store String ActivityRec × ActResp :=
  let deduped := sortDescBy actSortKey (dedupActivities all_records)
  let limited := if limit ≠ 0 then deduped.take limit else deduped
  (store, ⟨deduped.length, limited⟩)

/-- Lines 335–342 of `cache.py`: dedup by created_time, sort descending. -/
def finalizeFeedback (store : Store Int FeedbackRec)
    (all_records : List FeedbackRec) :
    Store Int FeedbackRec × RowsResp FeedbackRec :=
  let deduped := sortDescBy fbSortKey (dedupFeedback all_records)
  (store, ⟨deduped.length, deduped⟩)

/-- `LikesCache.fetch_activities`. The API collaborator is a function from
`(start_date, end_date, limit)` to an outcome; `today`/`now` stand for
`_today()` and `datetime.now().isoformat()`; `limit = 0` models a falsy
limit. Returns the updated store together with the response. -/
def fetch_activities (api : Int → Int → Nat → Except Unit ActResp)
    (store : Store String ActivityRec) (today : Int) (now : String)
    (startOpt endOpt : Option Int) (limit : Nat) (no_cache : Bool) :
    Store String ActivityRec × ActResp :=
  let end_date := endOpt.getD today
  let start_date := startOpt.getD (end_date - 30)
  if no_cache then
    match api start_date end_date limit with
    | .ok data => (mergeActivities store now data.list, data)
    | .error _ => (store, ⟨0, []⟩)
  else
    let frozen_boundary := today - FROZEN_DAYS
    let frozen :=
      if start_date < frozen_boundary then
        let frozen_end := min end_date frozen_boundary
        let cached := getCachedActivities store start_date frozen_end
        let gaps := detectGaps store.fetched_ranges start_date frozen_end
        gaps.foldl (actGapStep api now) (store, cached)
      else (store, [])
    let fresh_start := max start_date frozen_boundary
    let combined :=
      if fresh_start ≤ end_date then
        match api fresh_start end_date 100 with
        | .ok data =>
          let store1 := mergeActivities frozen.1 now data.list
          let store2 := recordFetchedRange store1 fresh_start end_date
          let existing := frozen.2.map actIdStr
          (store2, frozen.2 ++ data.list.filter
            (fun item => decide (actIdStr item ∉ existing)))
        | .error _ =>
          let cached := getCachedActivities frozen.1 fresh_start end_date
          let existing := frozen.2.map actIdStr
          (frozen.1, frozen.2 ++ cached.filter
            (fun item => decide (actIdStr item ∉ existing)))
      else frozen
    finalizeActivities combined.1 combined.2 limit

/-! ## Fetch orchestrator: plans -/

/-- `LikesCache.fetch_plans`: always call the API; on success merge and
return the response unchanged; on failure fall back to the cached plans in
`[plan_start, plan_start + PLAN_CHUNK_DAYS]`, sorted ascending by start
(empty result in `no_cache` mode). The API outcome is passed directly. -/
def fetch_plans (apiResult : Except Unit (RowsResp PlanRec))
    (store : Store Int PlanRec) (today : Int) (now : String)
    (startOpt : Option Int) (no_cache : Bool) :
    Store Int PlanRec × RowsResp PlanRec :=
  match apiResult with
  | .ok data => (mergePlans store now data.rows, data)
  | .error _ =>
    if no_cache then (store, ⟨0, []⟩)
    else
      let plan_start := startOpt.getD today
      let plan_end := plan_start + (PLAN_CHUNK_DAYS : Int)
      let cached := getCachedPlans store plan_start plan_end
      let sortedRows := cached.mergeSort (fun a b => decide (planSortKey a ≤ planSortKey b))
      (store, ⟨sortedRows.length, sortedRows⟩)

/-! ## Fetch orchestrator: feedback -/

/-- One iteration of the frozen-gap loop of `fetch_feedback`. -/
def fbGapStep (api : Int → Int → Except Unit (RowsResp FeedbackRec)) (now : String)
    (st : Store Int FeedbackRec × List FeedbackRec) (gap : Int × Int) :
    Store Int FeedbackRec × List FeedbackRec :=
  match api gap.1 gap.2 with
  | .ok data =>
    let items := data.rows
    let store1 := mergeFeedback st.1 now items
    let store2 := recordFetchedRange store1 gap.1 gap.2
    let existing := st.2.map fbKeyStr
    (store2, st.2 ++ items.filter (fun item => decide (fbKeyStr item ∉ existing)))
  | .error _ => st

/-- `LikesCache.fetch_feedback`: empty result when either bound is missing,
otherwise the same frozen/fresh split as activities, keyed by
`created_time` and with no limit. -/
def fetch_feedback (api : Int → Int → Except Unit (RowsResp FeedbackRec))
    (store : Store Int FeedbackRec) (today : Int) (now : String)
    (startOpt endOpt : Option Int) (no_cache : Bool) :
    Store Int FeedbackRec × RowsResp FeedbackRec :=
  match startOpt, endOpt with
  | some start, some end_ =>
    if no_cache then
      match api start end_ with
      | .ok data => (mergeFeedback store now data.rows, data)
      | .error _ => (store, ⟨0, []⟩)
    else
      let frozen_boundary := today - FROZEN_DAYS
      let frozen :=
        if start < frozen_boundary then
          let frozen_end := min end_ frozen_boundary
          let cached := getCachedFeedback store start frozen_end
          let gaps := detectGaps store.fetched_ranges start frozen_end
          gaps.foldl (fbGapStep api now) (store, cached)
        else (store, [])
      let fresh_start := max start frozen_boundary
      let combined :=
        if fresh_start ≤ end_ then
          match api fresh_start end_ with
          | .ok data =>
            let store1 := mergeFeedback frozen.1 now data.rows
            let store2 := recordFetchedRange store1 fresh_start end_
            let existing := frozen.2.map fbKeyStr
            (store2, frozen.2 ++ data.rows.filter
              (fun item => decide (fbKeyStr item ∉ existing)))
          | .error _ =>
            let cached := getCachedFeedback frozen.1 fresh_start end_
            let existing := frozen.2.map fbKeyStr
            (frozen.1, frozen.2 ++ cached.filter
              (fun item => decide (fbKeyStr item ∉ existing)))
        else frozen
      finalizeFeedback combined.1 combined.2
  | _, _ => (store, ⟨0, []⟩)

/-! ## Clear -/

/-- `LikesCache.clear(before)` on the activities store: delete the records
whose `sign_date` is truthy (present and non-zero) and strictly before the
cutoff midnight; `_fetched_ranges` is not touched. -/
def clearActivitiesBefore (store : Store String ActivityRec) (before : Int) :
    Store String ActivityRec :=
  { store with records := store.records.filter (fun kv =>
      match kv.2.sign_date with
      | none => true
      | some sd => !(decide (sd ≠ 0) && decide (sd < SECS_PER_DAY * before))) }

/-- `LikesCache.clear(before)` on the plans store: delete the records whose
`start` is truthy (present, non-empty) and strictly before the cutoff. -/
def clearPlansBefore (store : Store Int PlanRec) (before : Int) :
    Store Int PlanRec :=
  { store with records := store.records.filter (fun kv =>
      match kv.2.start with
      | none => true
      | some d => !(decide (d < before))) }

/-- `LikesCache.clear(before)` on the feedback store. -/
def clearFeedbackBefore (store : Store Int FeedbackRec) (before : Int) :
    Store Int FeedbackRec :=
  { store with records := store.records.filter (fun kv =>
      match kv.2.created_time with
      | none => true
      | some ct => !(decide (ct ≠ 0) && decide (ct < SECS_PER_DAY * before))) }

/-! ## Backfill scheduler -/

inductive Endpoint
  | activities
  | feedback
  | plans
deriving DecidableEq

/-- Why the backfill loop stopped: ran out of chunks (`range(max_chunks)`
exhausted), walked past the requested horizon, hit the consecutive-empty
threshold, or aborted on a network error. -/
inductive StopReason
  | exhausted
  | pastRange
  | emptyStreak
  | apiError
deriving DecidableEq

/-- The three on-disk stores. -/
structure CacheState where
  acts : Store String ActivityRec
  plans : Store Int PlanRec
  feedback : Store Int FeedbackRec
deriving DecidableEq

/-- Python truthiness of the `months` argument: `None` and `0` are falsy. -/
def monthsGiven : Option Nat → Bool
  | none => false
  | some m => m != 0

/-- `PLAN_CHUNK_DAYS if endpoint == "plans" else CHUNK_DAYS`. -/
def chunkDaysNat : Endpoint → Nat
  | .plans => PLAN_CHUNK_DAYS
  | _ => CHUNK_DAYS

/-- The body of `LikesCache.backfill`, walking the remaining chunk indices.
The per-endpoint branch of the loop body is hoisted into the top-level
pattern match (each cons arm begins with the shared past-horizon check).
Besides the final cache state, the function returns — as the observable
trace used by the specification — the list of attempted chunk indices, the
final empty-streak counter and the stop reason. -/
def backfillGo
    (actApi : Int → Int → Nat → Except Unit ActResp)
    (fbApi : Int → Int → Except Unit (RowsResp FeedbackRec))
    (plansApi : Int → Except Unit (RowsResp PlanRec))
    (today : Int) (months : Option Nat) (now : String) :
    Endpoint → List Nat → CacheState → Nat →
      CacheState × List Nat × Nat × StopReason
  | _, [], st, streak => (st, [], streak, .exhausted)
  | .activities, i :: rest, st, streak =>
    let chunk_days : Int := (chunkDaysNat .activities : Int)
    let chunk_end := today - (i : Int) * chunk_days
    let chunk_start := chunk_end - chunk_days
    if monthsGiven months &&
        decide (chunk_end < today - ((months.getD 0 : Nat) : Int) * 30) then
      (st, [], streak, .pastRange)
    else if (detectGaps st.acts.fetched_ranges chunk_start chunk_end).isEmpty then
      let r := backfillGo actApi fbApi plansApi today months now .activities rest st streak
      (r.1, i :: r.2.1, r.2.2)
    else
      match actApi chunk_start chunk_end 100 with
      | .error _ => (st, [i], streak, .apiError)
      | .ok data =>
        let acts1 := recordFetchedRange (mergeActivities st.acts now data.list)
          chunk_start chunk_end
        let st1 := { st with acts := acts1 }
        let streak1 := if data.list.length = 0 then streak + 1 else 0
        if !monthsGiven months && decide (BACKFILL_EMPTY_STOP ≤ streak1) then
          (st1, [i], streak1, .emptyStreak)
        else
          let r := backfillGo actApi fbApi plansApi today months now .activities rest
            st1 streak1
          (r.1, i :: r.2.1, r.2.2)
  | .feedback, i :: rest, st, streak =>
    let chunk_days : Int := (chunkDaysNat .feedback : Int)
    let chunk_end := today - (i : Int) * chunk_days
    let chunk_start := chunk_end - chunk_days
    if monthsGiven months &&
        decide (chunk_end < today - ((months.getD 0 : Nat) : Int) * 30) then
      (st, [], streak, .pastRange)
    else if (detectGaps st.feedback.fetched_ranges chunk_start chunk_end).isEmpty then
      let r := backfillGo actApi fbApi plansApi today months now .feedback rest st streak
      (r.1, i :: r.2.1, r.2.2)
    else
      match fbApi chunk_start chunk_end with
      | .error _ => (st, [i], streak, .apiError)
      | .ok data =>
        let fb1 := recordFetchedRange (mergeFeedback st.feedback now data.rows)
          chunk_start chunk_end
        let st1 := { st with feedback := fb1 }
        let streak1 := if data.rows.length = 0 then streak + 1 else 0
        if !monthsGiven months && decide (BACKFILL_EMPTY_STOP ≤ streak1) then
          (st1, [i], streak1, .emptyStreak)
        else
          let r := backfillGo actApi fbApi plansApi today months now .feedback rest
            st1 streak1
          (r.1, i :: r.2.1, r.2.2)
  | .plans, i :: rest, st, streak =>
    let chunk_days : Int := (chunkDaysNat .plans : Int)
    let chunk_end := today - (i : Int) * chunk_days
    let chunk_start := chunk_end - chunk_days
    if monthsGiven months &&
        decide (chunk_end < today - ((months.getD 0 : Nat) : Int) * 30) then
      (st, [], streak, .pastRange)
    else
      match plansApi chunk_start with
      | .error _ => (st, [i], streak, .apiError)
      | .ok data =>
        let st1 := { st with plans := mergePlans st.plans now data.rows }
        let streak1 := if data.rows.length = 0 then streak + 1 else 0
        if !monthsGiven months && decide (BACKFILL_EMPTY_STOP ≤ streak1) then
          (st1, [i], streak1, .emptyStreak)
        else
          let r := backfillGo actApi fbApi plansApi today months now .plans rest
            st1 streak1
          (r.1, i :: r.2.1, r.2.2)

/-- `LikesCache.backfill`: walk backward from today in fixed-size chunks;
`max_chunks = months * 30 // chunk_days + 1` with a truthy horizon,
otherwise the safety cap of `999`. -/
def backfill (ep : Endpoint)
    (actApi : Int → Int → Nat → Except Unit ActResp)
    (fbApi : Int → Int → Except Unit (RowsResp FeedbackRec))
    (plansApi : Int → Except Unit (RowsResp PlanRec))
    (today : Int) (months : Option Nat) (now : String) (st : CacheState) :
    CacheState × List Nat × Nat × StopReason :=
  let max_chunks :=
    if monthsGiven months then (months.getD 0) * 30 / chunkDaysNat ep + 1 else 999
  backfillGo actApi fbApi plansApi today months now ep (List.range max_chunks) st 0

/-! ## Specification-side predicates -/

/-- Two activities do not share an identity key: whenever the first has a
present id, the second's id differs. -/
def actKeyDistinct (a b : ActivityRec) : Prop :=
  ∀ s, a.id = some s → b.id ≠ some s

/-- Two feedback records do not share an identity key. -/
def fbKeyDistinct (a b : FeedbackRec) : Prop :=
  ∀ t, a.created_time = some t → b.created_time ≠ some t

/-- A list sorted descending by an integer key. -/
def SortedDescBy {ρ : Type} (key : ρ → Int) (l : List ρ) : Prop :=
  l.Pairwise (fun a b => key b ≤ key a)

/-! ## Concrete fixtures for witnesses and counterexamples -/

/-- An API that always fails with a network error. -/
def actApiDown : Int → Int → Nat → Except Unit ActResp := fun _ _ _ => .error ()

def fbApiDown : Int → Int → Except Unit (RowsResp FeedbackRec) := fun _ _ => .error ()

def plansApiDown : Int → Except Unit (RowsResp PlanRec) := fun _ => .error ()

/-- An activities API that always returns one record. -/
def actApiOneRecord : Int → Int → Nat → Except Unit ActResp :=
  fun _ _ _ => .ok ⟨1, [{ id := some "a1", sign_date := some 1000 }]⟩

/-- APIs that always succeed with zero records. -/
def actApiEmpty : Int → Int → Nat → Except Unit ActResp := fun _ _ _ => .ok ⟨0, []⟩

def fbApiEmpty : Int → Int → Except Unit (RowsResp FeedbackRec) := fun _ _ => .ok ⟨0, []⟩

def plansApiEmpty : Int → Except Unit (RowsResp PlanRec) := fun _ => .ok ⟨0, []⟩

def emptyCacheState : CacheState := ⟨⟨[], []⟩, ⟨[], []⟩, ⟨[], []⟩⟩

/-- A stored activity whose `sign_date` is the epoch timestamp `0`:
`_get_cached_activities` treats it as a valid date, but `clear` treats `0`
as falsy. -/
def epochActivity : ActivityRec := { id := some "a0", sign_date := some 0 }

def epochActStore : Store String ActivityRec := ⟨[("a0", epochActivity)], [(0, 3)]⟩

def planEarly : PlanRec := { start := some 100 }

def planLate : PlanRec := { start := some 200 }

end LikesCache

open LikesCache

/-! # Helper lemmas -/

namespace LikesCache

theorem sortRanges_sorted {α : Type} [LinearOrder α] (ranges : List (α × α)) :
    (sortRanges ranges).Pairwise (fun a b => a.1 ≤ b.1) := by
  have h := @List.sorted_mergeSort (α × α) (fun a b => decide (a.1 ≤ b.1))
    (fun a b c hab hbc => by
      simp only [decide_eq_true_eq] at *; exact le_trans hab hbc)
    (fun a b => by
      simp only [Bool.or_eq_true, decide_eq_true_eq]; exact le_total a.1 b.1)
    ranges
  exact h.imp (fun hab => by simpa using hab)

theorem sortRanges_perm {α : Type} [LinearOrder α] (ranges : List (α × α)) :
    List.Perm (sortRanges ranges) ranges :=
  List.mergeSort_perm ranges _

theorem mem_sortRanges {α : Type} [LinearOrder α] {r : α × α} {ranges : List (α × α)} :
    r ∈ sortRanges ranges ↔ r ∈ ranges :=
  (sortRanges_perm ranges).mem_iff

theorem sortRanges_of_sorted {α : Type} [LinearOrder α] {ranges : List (α × α)}
    (h : ranges.Pairwise (fun a b => a.1 ≤ b.1)) :
    sortRanges ranges = ranges :=
  List.mergeSort_of_sorted (h.imp (fun hab => by simpa using hab))

theorem mergeLoop_start_ge {α : Type} [LinearOrder α] {x : α} :
    ∀ (l : List (α × α)) (last : α × α), x ≤ last.1 → (∀ r ∈ l, x ≤ r.1) →
      ∀ g ∈ mergeLoop last l, x ≤ g.1
  | [], last, hlast, _, g, hg => by
    simp only [mergeLoop, List.mem_singleton] at hg; subst hg; exact hlast
  | (s, e) :: rest, last, hlast, hl, g, hg => by
    simp only [mergeLoop] at hg
    by_cases hse : s ≤ last.2
    · rw [if_pos hse] at hg
      exact mergeLoop_start_ge rest (last.1, max last.2 e) hlast
        (fun r hr => hl r (List.mem_cons_of_mem _ hr)) g hg
    · rw [if_neg hse] at hg
      rcases List.mem_cons.mp hg with hg | hg
      · subst hg; exact hlast
      · exact mergeLoop_start_ge rest (s, e) (hl _ (List.mem_cons_self _ _))
          (fun r hr => hl r (List.mem_cons_of_mem _ hr)) g hg

theorem mergeLoop_merged {α : Type} [LinearOrder α] :
    ∀ (l : List (α × α)) (last : α × α),
      l.Pairwise (fun a b => a.1 ≤ b.1) → (∀ r ∈ l, last.1 ≤ r.1) →
      RangesMerged (mergeLoop last l)
  | [], last, _, _ => by
    simp only [mergeLoop, RangesMerged]
    exact List.pairwise_singleton _ _
  | (s, e) :: rest, last, hsort, hge => by
    simp only [mergeLoop]
    by_cases hse : s ≤ last.2
    · rw [if_pos hse]
      exact mergeLoop_merged rest _ (List.Pairwise.of_cons hsort)
        (fun r hr => hge r (List.mem_cons_of_mem _ hr))
    · rw [if_neg hse]
      push_neg at hse
      have hrest_sort := List.Pairwise.of_cons hsort
      have hs_le : ∀ r ∈ rest, s ≤ r.1 := fun r hr =>
        (List.pairwise_cons.mp hsort).1 r hr
      refine List.pairwise_cons.mpr ⟨fun g hg => ?_, ?_⟩
      · have hsg : s ≤ g.1 := mergeLoop_start_ge rest (s, e) le_rfl hs_le g hg
        exact ⟨le_trans (hge _ (List.mem_cons_self _ _)) hsg, lt_of_lt_of_le hse hsg⟩
      · exact mergeLoop_merged rest (s, e) hrest_sort hs_le

theorem rangesMerged_mergeRanges {α : Type} [LinearOrder α] (ranges : List (α × α)) :
    RangesMerged (mergeRanges ranges) := by
  unfold mergeRanges
  rcases hs : sortRanges ranges with _ | ⟨r, rest⟩
  · exact List.Pairwise.nil
  · have hsort := sortRanges_sorted ranges
    rw [hs] at hsort
    exact mergeLoop_merged rest r (List.Pairwise.of_cons hsort)
      (fun x hx => (List.pairwise_cons.mp hsort).1 x hx)

theorem mergeLoop_of_merged {α : Type} [LinearOrder α] :
    ∀ (l : List (α × α)) (last : α × α),
      RangesMerged (last :: l) → mergeLoop last l = last :: l
  | [], _, _ => rfl
  | (s, e) :: rest, last, h => by
    have hlt : last.2 < s := ((List.pairwise_cons.mp h).1 _ (List.mem_cons_self _ _)).2
    simp only [mergeLoop, if_neg (not_le.mpr hlt)]
    rw [mergeLoop_of_merged rest (s, e) (List.Pairwise.of_cons h)]

theorem mergeRanges_of_merged {α : Type} [LinearOrder α] {l : List (α × α)}
    (h : RangesMerged l) : mergeRanges l = l := by
  unfold mergeRanges
  have hsorted : l.Pairwise (fun a b => a.1 ≤ b.1) :=
    h.imp (fun hab => hab.1)
  rw [sortRanges_of_sorted hsorted]
  rcases l with _ | ⟨r, rest⟩
  · rfl
  · exact mergeLoop_of_merged rest r h

theorem gapsLoop_valid {α : Type} [LinearOrder α] {end_ : α} :
    ∀ (l : List (α × α)) (cursor : α),
      ∀ g ∈ gapsLoop end_ cursor l, cursor ≤ g.1 ∧ g.1 < g.2
  | [], cursor, g, hg => by
    simp only [gapsLoop] at hg
    split at hg
    · simp only [List.mem_singleton] at hg; subst hg
      exact ⟨le_rfl, by assumption⟩
    · simp at hg
  | (rs, re) :: rest, cursor, g, hg => by
    simp only [gapsLoop, List.mem_append] at hg
    rcases hg with hg | hg
    · split at hg
      · split at hg
        · simp only [List.mem_singleton] at hg; subst hg
          exact ⟨le_rfl, by assumption⟩
        · simp at hg
      · simp at hg
    · have := gapsLoop_valid rest (max cursor re) g hg
      exact ⟨le_trans (le_max_left _ _) this.1, this.2⟩

theorem gapsLoop_covers {α : Type} [LinearOrder α] {end_ : α} :
    ∀ (l : List (α × α)) (cursor x : α), cursor ≤ x → x < end_ →
      (∃ g ∈ gapsLoop end_ cursor l, covers g x) ∨ (∃ r ∈ l, covers r x)
  | [], cursor, x, hcx, hxe => by
    left
    refine ⟨(cursor, end_), ?_, hcx, hxe⟩
    simp only [gapsLoop, if_pos (lt_of_le_of_lt hcx hxe), List.mem_singleton]
  | (rs, re) :: rest, cursor, x, hcx, hxe => by
    by_cases hx_later : max cursor re ≤ x
    · rcases gapsLoop_covers rest (max cursor re) x hx_later hxe with
        ⟨g, hg, hgx⟩ | ⟨r, hr, hrx⟩
      · exact Or.inl ⟨g, by simp only [gapsLoop, List.mem_append]; exact Or.inr hg, hgx⟩
      · exact Or.inr ⟨r, List.mem_cons_of_mem _ hr, hrx⟩
    · push_neg at hx_later
      have hxre : x < re := by
        rcases max_cases cursor re with ⟨hm, _⟩ | ⟨hm, hle⟩
        · rw [hm] at hx_later; exact absurd hcx (not_le.mpr hx_later)
        · rw [hm] at hx_later; exact hx_later
      by_cases hrsx : rs ≤ x
      · exact Or.inr ⟨(rs, re), List.mem_cons_self _ _, hrsx, hxre⟩
      · push_neg at hrsx
        left
        have hcs : cursor < rs := lt_of_le_of_lt hcx hrsx
        have hcm : cursor < min rs end_ :=
          lt_min (lt_of_le_of_lt hcx hrsx) (lt_of_le_of_lt hcx hxe)
        refine ⟨(cursor, min rs end_), ?_, hcx, lt_min hrsx hxe⟩
        simp only [gapsLoop, List.mem_append, gt_iff_lt]
        left
        rw [if_pos hcs, if_pos hcm]
        exact List.mem_singleton.mpr rfl

theorem gapsLoop_disjoint {α : Type} [LinearOrder α] {end_ : α} :
    ∀ (l : List (α × α)) (cursor : α),
      l.Pairwise (fun a b => a.1 ≤ b.1) →
      ∀ g ∈ gapsLoop end_ cursor l, ∀ r ∈ l, g.2 ≤ r.1 ∨ r.2 ≤ g.1
  | [], _, _, g, _, r, hr => by simp at hr
  | (rs, re) :: rest, cursor, hsort, g, hg, r, hr => by
    simp only [gapsLoop, List.mem_append] at hg
    rcases hg with hg | hg
    · have hg_eq : g = (cursor, min rs end_) := by
        split at hg
        · split at hg
          · simpa using hg
          · simp at hg
        · simp at hg
      subst hg_eq
      rcases List.mem_cons.mp hr with hr | hr
      · subst hr; exact Or.inl (min_le_left _ _)
      · exact Or.inl (le_trans (min_le_left _ _)
          ((List.pairwise_cons.mp hsort).1 r hr))
    · rcases List.mem_cons.mp hr with hr | hr
      · subst hr
        have := gapsLoop_valid rest (max cursor re) g hg
        exact Or.inr (le_trans (le_max_right _ _) this.1)
      · exact gapsLoop_disjoint rest (max cursor re)
          (List.Pairwise.of_cons hsort) g hg r hr

end LikesCache

/-! # Claim theorems -/

/-- **C1.** For every requested range `[start, end]` with `start < end` and
every list of fetched ranges, the gap detector is complete (each day of the
request lies in a gap or in a fetched range), its gaps never overlap a
fetched range, and every emitted gap `[gs, ge]` satisfies `gs < ge`.
Ranges cover day-spans `[s, e)`. -/
theorem detectGaps_complete_disjoint_valid {α : Type} [LinearOrder α]
    (ranges : List (α × α)) (start end_ : α) (h : start < end_) :
    (∀ x, start ≤ x → x < end_ →
       (∃ g ∈ detectGaps ranges start end_, covers g x) ∨ (∃ r ∈ ranges, covers r x))
    ∧ (∀ g ∈ detectGaps ranges start end_, ∀ r ∈ ranges, ∀ x, ¬(covers g x ∧ covers r x))
    ∧ (∀ g ∈ detectGaps ranges start end_, g.1 < g.2) := by
  unfold detectGaps
  by_cases hemp : ranges.isEmpty
  · rw [if_pos hemp]
    have hnil : ranges = [] := List.isEmpty_iff.mp hemp
    subst hnil
    refine ⟨fun x hx hxe => Or.inl ⟨(start, end_), List.mem_singleton.mpr rfl, hx, hxe⟩,
      fun g _ r hr => absurd hr (List.not_mem_nil r), fun g hg => ?_⟩
    rw [List.mem_singleton.mp hg]
    exact h
  · rw [if_neg hemp]
    refine ⟨fun x hx hxe => ?_, fun g hg r hr x hx => ?_, fun g hg =>
      (gapsLoop_valid _ start g hg).2⟩
    · rcases gapsLoop_covers (sortRanges ranges) start x hx hxe with
        ⟨g, hg, hgx⟩ | ⟨r, hr, hrx⟩
      · exact Or.inl ⟨g, hg, hgx⟩
      · exact Or.inr ⟨r, mem_sortRanges.mp hr, hrx⟩
    · obtain ⟨hgx, hrx⟩ := hx
      have hdisj := gapsLoop_disjoint (sortRanges ranges) start
        (sortRanges_sorted ranges) g hg r (mem_sortRanges.mpr hr)
      rcases hdisj with hd | hd
      · exact absurd (lt_of_lt_of_le (lt_of_lt_of_le hgx.2 hd) hrx.1) (lt_irrefl x)
      · exact absurd (lt_of_lt_of_le (lt_of_lt_of_le hrx.2 hd) hgx.1) (lt_irrefl x)

/-- Witness for C1 at a concrete input: request `[0, 10]`, fetched `[[0, 5]]`;
day `7` is covered by a gap or a fetched range. -/
theorem detectGaps_complete_disjoint_valid_witness :
    (∃ g ∈ detectGaps [((0 : Int), 5)] 0 10, covers g 7) ∨
      (∃ r ∈ [((0 : Int), 5)], covers r 7) :=
  (detectGaps_complete_disjoint_valid [((0 : Int), 5)] 0 10 (by decide)).1 7
    (by decide) (by decide)

/-- **C3.** The interval merger is idempotent:
`merge(merge(R)) == merge(R)` for every list of date ranges `R`. -/
theorem mergeRanges_idempotent {α : Type} [LinearOrder α] (R : List (α × α)) :
    mergeRanges (mergeRanges R) = mergeRanges R :=
  mergeRanges_of_merged (rangesMerged_mergeRanges R)

/-! # C2: fetched_ranges stays merged after every mutation -/

namespace LikesCache

theorem foldl_filter_of_skip {ρ σ : Type} (f : σ → ρ → σ) (p : ρ → Bool)
    (hskip : ∀ a i, p i = false → f a i = a) :
    ∀ (l : List ρ) (acc : σ), l.foldl f acc = (l.filter p).foldl f acc
  | [], _ => rfl
  | i :: rest, acc => by
    rcases hp : p i with _ | _
    · rw [List.foldl_cons, hskip acc i hp, List.filter_cons_of_neg (by simp [hp])]
      exact foldl_filter_of_skip f p hskip rest acc
    · rw [List.foldl_cons, List.filter_cons_of_pos hp, List.foldl_cons]
      exact foldl_filter_of_skip f p hskip rest (f acc i)

theorem mergeActivities_ranges (store : Store String ActivityRec) (now : String)
    (items : List ActivityRec) :
    (mergeActivities store now items).fetched_ranges = store.fetched_ranges := rfl

theorem mergePlans_ranges (store : Store Int PlanRec) (now : String)
    (items : List PlanRec) :
    (mergePlans store now items).fetched_ranges = store.fetched_ranges := rfl

theorem mergeFeedback_ranges (store : Store Int FeedbackRec) (now : String)
    (items : List FeedbackRec) :
    (mergeFeedback store now items).fetched_ranges = store.fetched_ranges := rfl

end LikesCache

/-- **C2.** After every mutation of an entity store the `fetched_ranges`
sequence is sorted by start with each range ending strictly before the next
starts (non-overlapping, non-adjacent): the interval merger always outputs
such a sequence, recording a fetched range re-establishes the invariant
unconditionally, and merge-insert and cutoff-clear preserve it (they do not
touch `fetched_ranges`). -/
theorem store_ranges_merged_after_mutation :
    (∀ R : List (Int × Int), RangesMerged (mergeRanges R))
    ∧ (∀ (κ ρ : Type) (store : Store κ ρ) (s e : Int),
        RangesMerged ((recordFetchedRange store s e).fetched_ranges))
    ∧ (∀ (store : Store String ActivityRec) (now : String) (items : List ActivityRec),
        RangesMerged store.fetched_ranges →
        RangesMerged ((mergeActivities store now items).fetched_ranges))
    ∧ (∀ (store : Store Int PlanRec) (now : String) (items : List PlanRec),
        RangesMerged store.fetched_ranges →
        RangesMerged ((mergePlans store now items).fetched_ranges))
    ∧ (∀ (store : Store Int FeedbackRec) (now : String) (items : List FeedbackRec),
        RangesMerged store.fetched_ranges →
        RangesMerged ((mergeFeedback store now items).fetched_ranges))
    ∧ (∀ (store : Store String ActivityRec) (before : Int),
        RangesMerged store.fetched_ranges →
        RangesMerged ((clearActivitiesBefore store before).fetched_ranges))
    ∧ (∀ (store : Store Int PlanRec) (before : Int),
        RangesMerged store.fetched_ranges →
        RangesMerged ((clearPlansBefore store before).fetched_ranges))
    ∧ (∀ (store : Store Int FeedbackRec) (before : Int),
        RangesMerged store.fetched_ranges →
        RangesMerged ((clearFeedbackBefore store before).fetched_ranges)) :=
  ⟨fun R => rangesMerged_mergeRanges R,
   fun _ _ store s e => rangesMerged_mergeRanges (store.fetched_ranges ++ [(s, e)]),
   fun _ _ _ h => h, fun _ _ _ h => h, fun _ _ _ h => h,
   fun _ _ h => h, fun _ _ h => h, fun _ _ h => h⟩

/-- Witness for C2 at concrete inputs: recording the range `[2, 4]` over the
already-fetched `[[0, 1], [3, 8]]` yields a merged sequence, and
merge-inserting into a store whose ranges satisfy the invariant preserves
it. -/
theorem store_ranges_merged_after_mutation_witness :
    RangesMerged ((recordFetchedRange
        (⟨[], [(0, 1), (3, 8)]⟩ : Store String ActivityRec) 2 4).fetched_ranges)
    ∧ RangesMerged ((mergeActivities ⟨[], [(0, 1), (3, 8)]⟩ "t"
        [{ id := some "a1", sign_date := some 50 }]).fetched_ranges) :=
  ⟨store_ranges_merged_after_mutation.2.1 String ActivityRec ⟨[], [(0, 1), (3, 8)]⟩ 2 4,
   store_ranges_merged_after_mutation.2.2.1 ⟨[], [(0, 1), (3, 8)]⟩ "t"
     [{ id := some "a1", sign_date := some 50 }] (by decide)⟩

/-- **C10.** Merge-insert silently skips items whose identity key is missing
or empty: merging a list is the same as merging the list with the keyless
items removed, and merging a single keyless item leaves the store unchanged
(no error is signalled — the operation is total). -/
theorem merge_insert_skips_keyless :
    (∀ (store : Store String ActivityRec) (now : String) (items : List ActivityRec),
        mergeActivities store now items
          = mergeActivities store now (items.filter (fun i => !decide (activityKey i = ""))))
    ∧ (∀ (store : Store Int PlanRec) (now : String) (items : List PlanRec),
        mergePlans store now items
          = mergePlans store now (items.filter (fun i => (planKeyOpt i).isSome)))
    ∧ (∀ (store : Store Int FeedbackRec) (now : String) (items : List FeedbackRec),
        mergeFeedback store now items
          = mergeFeedback store now (items.filter (fun i => (feedbackKeyOpt i).isSome)))
    ∧ (∀ (store : Store String ActivityRec) (now : String) (item : ActivityRec),
        activityKey item = "" → mergeActivities store now [item] = store)
    ∧ (∀ (store : Store Int PlanRec) (now : String) (item : PlanRec),
        planKeyOpt item = none → mergePlans store now [item] = store)
    ∧ (∀ (store : Store Int FeedbackRec) (now : String) (item : FeedbackRec),
        feedbackKeyOpt item = none → mergeFeedback store now [item] = store) := by
  refine ⟨fun store now items => ?_, fun store now items => ?_, fun store now items => ?_,
    fun store now item h => ?_, fun store now item h => ?_, fun store now item h => ?_⟩
  · unfold mergeActivities
    rw [foldl_filter_of_skip _ (fun i => !decide (activityKey i = ""))
      (fun a i hi => by
        by_cases hk : activityKey i = ""
        · simp [hk]
        · exfalso; simp [hk] at hi) items store.records]
  · unfold mergePlans
    rw [foldl_filter_of_skip _ (fun i => (planKeyOpt i).isSome)
      (fun a i hi => by
        rcases hk : planKeyOpt i with _ | k
        · simp [hk]
        · exfalso; simp [hk] at hi) items store.records]
  · unfold mergeFeedback
    rw [foldl_filter_of_skip _ (fun i => (feedbackKeyOpt i).isSome)
      (fun a i hi => by
        rcases hk : feedbackKeyOpt i with _ | k
        · simp [hk]
        · exfalso; simp [hk] at hi) items store.records]
  · unfold mergeActivities
    simp [h]
  · unfold mergePlans
    simp [h]
  · unfold mergeFeedback
    simp [h]

/-- Witness for C10: merging a single activity whose item has no id leaves
the store unchanged. -/
theorem merge_insert_skips_keyless_witness :
    mergeActivities (⟨[], [(0, 1)]⟩ : Store String ActivityRec) "t"
      [{ id := none, sign_date := some 5 }] = ⟨[], [(0, 1)]⟩ :=
  merge_insert_skips_keyless.2.2.2.1 ⟨[], [(0, 1)]⟩ "t"
    { id := none, sign_date := some 5 } (by decide)

/-! # C6: a failed gap call records nothing and falls back to cache -/

/-- **C6.** When the API call for a gap of the frozen portion fails with a
network error, the whole loop iteration is a no-op: nothing is merged, the
gap's range is not recorded in `fetched_ranges`, and the accumulated
(already-cached) records are passed through unchanged — for activities and
feedback alike; consequently a frozen portion all of whose gap calls fail
leaves the store untouched and serves exactly the cached records. -/
theorem gap_failure_records_nothing :
    (∀ (api : Int → Int → Nat → Except Unit ActResp) (now : String)
        (st : Store String ActivityRec × List ActivityRec) (gap : Int × Int),
        api gap.1 gap.2 100 = .error () → actGapStep api now st gap = st)
    ∧ (∀ (api : Int → Int → Except Unit (RowsResp FeedbackRec)) (now : String)
        (st : Store Int FeedbackRec × List FeedbackRec) (gap : Int × Int),
        api gap.1 gap.2 = .error () → fbGapStep api now st gap = st)
    ∧ (∀ (api : Int → Int → Nat → Except Unit ActResp) (now : String)
        (store : Store String ActivityRec) (cached : List ActivityRec)
        (gaps : List (Int × Int)),
        (∀ g ∈ gaps, api g.1 g.2 100 = .error ()) →
        gaps.foldl (actGapStep api now) (store, cached) = (store, cached))
    ∧ (∀ (api : Int → Int → Except Unit (RowsResp FeedbackRec)) (now : String)
        (store : Store Int FeedbackRec) (cached : List FeedbackRec)
        (gaps : List (Int × Int)),
        (∀ g ∈ gaps, api g.1 g.2 = .error ()) →
        gaps.foldl (fbGapStep api now) (store, cached) = (store, cached)) := by
  have hact : ∀ (api : Int → Int → Nat → Except Unit ActResp) (now : String)
      (st : Store String ActivityRec × List ActivityRec) (gap : Int × Int),
      api gap.1 gap.2 100 = .error () → actGapStep api now st gap = st := by
    intro api now st gap h
    unfold actGapStep
    rw [h]
  have hfb : ∀ (api : Int → Int → Except Unit (RowsResp FeedbackRec)) (now : String)
      (st : Store Int FeedbackRec × List FeedbackRec) (gap : Int × Int),
      api gap.1 gap.2 = .error () → fbGapStep api now st gap = st := by
    intro api now st gap h
    unfold fbGapStep
    rw [h]
  refine ⟨hact, hfb, fun api now store cached gaps hall => ?_, fun api now store cached gaps hall => ?_⟩
  · induction gaps with
    | nil => rfl
    | cons g rest ih =>
      rw [List.foldl_cons, hact api now _ g (hall g (List.mem_cons_self _ _))]
      exact ih (fun g' hg' => hall g' (List.mem_cons_of_mem _ hg'))
  · induction gaps with
    | nil => rfl
    | cons g rest ih =>
      rw [List.foldl_cons, hfb api now _ g (hall g (List.mem_cons_self _ _))]
      exact ih (fun g' hg' => hall g' (List.mem_cons_of_mem _ hg'))

/-- Witness for C6 at a concrete input: with the API down, a gap iteration
over the gap `[0, 5]` leaves store and accumulated records unchanged. -/
theorem gap_failure_records_nothing_witness :
    actGapStep actApiDown "t" ((⟨[], [(10, 20)]⟩ : Store String ActivityRec), []) (0, 5)
      = ((⟨[], [(10, 20)]⟩ : Store String ActivityRec), []) :=
  gap_failure_records_nothing.1 actApiDown "t" (⟨[], [(10, 20)]⟩, []) (0, 5) rfl

/-! # C7: clear-by-cutoff -/

/-- Counterexample to C7 as stated: the stored activity `epochActivity` has
`sign_date = 0`, a timestamp strictly before the cutoff (day 1), yet
`clear` keeps it, because the source guards on the truthiness of the date
field (`if sd and ...`) and `0` is falsy — while `_get_cached_activities`
treats the same timestamp `0` as a valid date. `_fetched_ranges` and the
record are unchanged. -/
theorem clear_keeps_epoch_dated_record :
    (clearActivitiesBefore epochActStore 1).records = epochActStore.records
    ∧ epochActivity.sign_date = some 0
    ∧ (0 : Int) < SECS_PER_DAY * 1 := by decide

/-- **C7 (amended).** Clearing with a cutoff deletes exactly the records
whose date field is *truthy* (present and, for the timestamp-keyed kinds,
non-zero; for plans, present and non-empty) and strictly before the cutoff;
every other record is kept unchanged in place, and `_fetched_ranges` is left
entirely unchanged, for all three entity kinds. Records with a falsy date
field (`None`, timestamp `0`, empty start) are kept even when that date is
before the cutoff. -/
theorem clear_before_deletes_exactly_truthy_old :
    (∀ (store : Store String ActivityRec) (before : Int),
        (clearActivitiesBefore store before).fetched_ranges = store.fetched_ranges
        ∧ ∀ (k : String) (r : ActivityRec),
            ((k, r) ∈ (clearActivitiesBefore store before).records ↔
              (k, r) ∈ store.records ∧
                ¬ ∃ sd, r.sign_date = some sd ∧ sd ≠ 0 ∧ sd < SECS_PER_DAY * before))
    ∧ (∀ (store : Store Int PlanRec) (before : Int),
        (clearPlansBefore store before).fetched_ranges = store.fetched_ranges
        ∧ ∀ (k : Int) (r : PlanRec),
            ((k, r) ∈ (clearPlansBefore store before).records ↔
              (k, r) ∈ store.records ∧ ¬ ∃ d, r.start = some d ∧ d < before))
    ∧ (∀ (store : Store Int FeedbackRec) (before : Int),
        (clearFeedbackBefore store before).fetched_ranges = store.fetched_ranges
        ∧ ∀ (k : Int) (r : FeedbackRec),
            ((k, r) ∈ (clearFeedbackBefore store before).records ↔
              (k, r) ∈ store.records ∧
                ¬ ∃ ct, r.created_time = some ct ∧ ct ≠ 0 ∧ ct < SECS_PER_DAY * before)) := by
  refine ⟨fun store before => ⟨rfl, fun k r => ?_⟩,
    fun store before => ⟨rfl, fun k r => ?_⟩,
    fun store before => ⟨rfl, fun k r => ?_⟩⟩
  · rcases hsd : r.sign_date with _ | sd
    · simp [clearActivitiesBefore, List.mem_filter, hsd]
    · simp only [clearActivitiesBefore, List.mem_filter, hsd]
      constructor
      · rintro ⟨hmem, hp⟩
        simp only [Bool.not_eq_true', Bool.and_eq_false_iff, decide_eq_false_iff_not,
          not_not] at hp
        refine ⟨hmem, ?_⟩
        rintro ⟨sd', hsd', hnz, hlt⟩
        cases hsd'
        rcases hp with hp | hp
        · exact hnz hp
        · exact absurd hlt hp
      · rintro ⟨hmem, hnot⟩
        refine ⟨hmem, ?_⟩
        simp only [Bool.not_eq_true', Bool.and_eq_false_iff, decide_eq_false_iff_not,
          not_not]
        by_cases hz : sd = 0
        · exact Or.inl hz
        · exact Or.inr (fun hlt => hnot ⟨sd, rfl, hz, hlt⟩)
  · rcases hd : r.start with _ | d
    · simp [clearPlansBefore, List.mem_filter, hd]
    · simp only [clearPlansBefore, List.mem_filter, hd]
      constructor
      · rintro ⟨hmem, hp⟩
        simp only [Bool.not_eq_true', decide_eq_false_iff_not] at hp
        refine ⟨hmem, ?_⟩
        rintro ⟨d', hd', hlt⟩
        cases hd'
        exact hp hlt
      · rintro ⟨hmem, hnot⟩
        refine ⟨hmem, ?_⟩
        simp only [Bool.not_eq_true', decide_eq_false_iff_not]
        exact fun hlt => hnot ⟨d, rfl, hlt⟩
  · rcases hct : r.created_time with _ | ct
    · simp [clearFeedbackBefore, List.mem_filter, hct]
    · simp only [clearFeedbackBefore, List.mem_filter, hct]
      constructor
      · rintro ⟨hmem, hp⟩
        simp only [Bool.not_eq_true', Bool.and_eq_false_iff, decide_eq_false_iff_not,
          not_not] at hp
        refine ⟨hmem, ?_⟩
        rintro ⟨ct', hct', hnz, hlt⟩
        cases hct'
        rcases hp with hp | hp
        · exact hnz hp
        · exact absurd hlt hp
      · rintro ⟨hmem, hnot⟩
        refine ⟨hmem, ?_⟩
        simp only [Bool.not_eq_true', Bool.and_eq_false_iff, decide_eq_false_iff_not,
          not_not]
        by_cases hz : ct = 0
        · exact Or.inl hz
        · exact Or.inr (fun hlt => hnot ⟨ct, rfl, hz, hlt⟩)

/-! # C5: result ordering -/

namespace LikesCache

theorem sortDescBy_sorted {ρ : Type} (key : ρ → Int) (l : List ρ) :
    SortedDescBy key (sortDescBy key l) := by
  have h := @List.sorted_mergeSort ρ (fun a b => decide (key b ≤ key a))
    (fun a b c hab hbc => by
      simp only [decide_eq_true_eq] at *; exact le_trans hbc hab)
    (fun a b => by
      simp only [Bool.or_eq_true, decide_eq_true_eq]; exact le_total (key b) (key a))
    l
  exact h.imp (fun hab => by simpa using hab)

theorem finalizeActivities_sorted (store : Store String ActivityRec)
    (acc : List ActivityRec) (limit : Nat) :
    SortedDescBy actSortKey (finalizeActivities store acc limit).2.list := by
  simp only [finalizeActivities]
  by_cases hl : limit ≠ 0
  · rw [if_pos hl]
    exact (sortDescBy_sorted actSortKey (dedupActivities acc)).sublist
      (List.take_sublist _ _)
  · rw [if_neg hl]
    exact sortDescBy_sorted actSortKey (dedupActivities acc)

theorem finalizeFeedback_sorted (store : Store Int FeedbackRec)
    (acc : List FeedbackRec) :
    SortedDescBy fbSortKey (finalizeFeedback store acc).2.rows :=
  sortDescBy_sorted fbSortKey (dedupFeedback acc)

end LikesCache

/-- Counterexample to C5 as stated: on the *success* path `fetch_plans`
returns the API rows unchanged (`return data`), so with the API returning
rows out of order the result is not sorted ascending by start. -/
theorem fetch_plans_success_path_unsorted :
    ¬ ((fetch_plans (.ok ⟨2, [planLate, planEarly]⟩) (⟨[], []⟩ : Store Int PlanRec)
        0 "t" none false).2.rows.Pairwise
          (fun a b => planSortKey a ≤ planSortKey b)) := by
  decide

/-- **C5 (amended).** In cache-enabled mode, `fetch_activities` and
`fetch_feedback` results are sorted descending by `sign_date` /
`created_time` on every path (the final dedup-and-sort runs on success and
fallback alike); `fetch_plans` results are sorted ascending by start on the
cache-fallback path only — the success path returns the rows in API order,
unsorted. -/
theorem fetch_results_sorted :
    (∀ (api : Int → Int → Nat → Except Unit ActResp)
        (store : Store String ActivityRec) (today : Int) (now : String)
        (startOpt endOpt : Option Int) (limit : Nat),
        SortedDescBy actSortKey
          (fetch_activities api store today now startOpt endOpt limit false).2.list)
    ∧ (∀ (api : Int → Int → Except Unit (RowsResp FeedbackRec))
        (store : Store Int FeedbackRec) (today : Int) (now : String)
        (startOpt endOpt : Option Int),
        SortedDescBy fbSortKey
          (fetch_feedback api store today now startOpt endOpt false).2.rows)
    ∧ (∀ (store : Store Int PlanRec) (today : Int) (now : String)
        (startOpt : Option Int),
        ((fetch_plans (.error ()) store today now startOpt false).2.rows).Pairwise
          (fun a b => planSortKey a ≤ planSortKey b)) := by
  refine ⟨fun api store today now startOpt endOpt limit => ?_,
    fun api store today now startOpt endOpt => ?_,
    fun store today now startOpt => ?_⟩
  · exact finalizeActivities_sorted _ _ _
  · rcases startOpt with _ | s
    · exact List.Pairwise.nil
    · rcases endOpt with _ | e
      · exact List.Pairwise.nil
      · exact finalizeFeedback_sorted _ _
  · have h := @List.sorted_mergeSort PlanRec
      (fun a b => decide (planSortKey a ≤ planSortKey b))
      (fun a b c hab hbc => by
        simp only [decide_eq_true_eq] at *; exact le_trans hab hbc)
      (fun a b => by
        simp only [Bool.or_eq_true, decide_eq_true_eq]
        exact le_total (planSortKey a) (planSortKey b))
      (getCachedPlans store (startOpt.getD today) (startOpt.getD today + (PLAN_CHUNK_DAYS : Int)))
    exact h.imp (fun hab => by simpa using hab)

/-! # C4: no identity key appears twice in a fetch result -/

namespace LikesCache

theorem seenGo_mem {κ ρ : Type} [DecidableEq κ] :
    ∀ (l seen : List (κ × ρ)) (p : κ × ρ), p ∈ seenGo seen l →
      p ∈ seen ∨ (p ∈ l ∧ seen.any (fun q => decide (q.1 = p.1)) = false)
  | [], seen, p, hp => Or.inl hp
  | kr :: rest, seen, p, hp => by
    simp only [seenGo] at hp
    by_cases hcond : seen.any (fun q => decide (q.1 = kr.1)) = true
    · rw [if_pos hcond] at hp
      rcases seenGo_mem rest seen p hp with h | ⟨h1, h2⟩
      · exact Or.inl h
      · exact Or.inr ⟨List.mem_cons_of_mem _ h1, h2⟩
    · rw [if_neg hcond] at hp
      have hfalse : seen.any (fun q => decide (q.1 = kr.1)) = false :=
        Bool.eq_false_iff.mpr hcond
      rcases seenGo_mem rest (seen ++ [kr]) p hp with h | ⟨h1, h2⟩
      · rcases List.mem_append.mp h with h | h
        · exact Or.inl h
        · have hpkr : p = kr := List.mem_singleton.mp h
          subst hpkr
          exact Or.inr ⟨List.mem_cons_self _ _, hfalse⟩
      · have h2' : seen.any (fun q => decide (q.1 = p.1)) = false := by
          rw [List.any_append] at h2
          exact (Bool.or_eq_false_iff.mp h2).1
        exact Or.inr ⟨List.mem_cons_of_mem _ h1, h2'⟩

theorem seenGo_first {κ ρ : Type} [DecidableEq κ] :
    ∀ (l seen : List (κ × ρ)) (k : κ) (r : ρ), (k, r) ∈ seenGo seen l →
      seen.any (fun q => decide (q.1 = k)) = false →
      l.find? (fun q => decide (q.1 = k)) = some (k, r)
  | [], seen, k, r, hp, hany => by
    exfalso
    have htrue : seen.any (fun q => decide (q.1 = k)) = true :=
      List.any_eq_true.mpr ⟨(k, r), hp, by simp⟩
    rw [htrue] at hany
    simp at hany
  | kr :: rest, seen, k, r, hp, hany => by
    simp only [seenGo] at hp
    by_cases hck : kr.1 = k
    · by_cases hcond : seen.any (fun q => decide (q.1 = kr.1)) = true
      · exfalso
        rw [hck, hany] at hcond
        simp at hcond
      · rw [if_neg hcond] at hp
        rcases seenGo_mem rest (seen ++ [kr]) (k, r) hp with h | ⟨_, h2⟩
        · rcases List.mem_append.mp h with h | h
          · exfalso
            have htrue : seen.any (fun q => decide (q.1 = k)) = true :=
              List.any_eq_true.mpr ⟨(k, r), h, by simp⟩
            rw [htrue] at hany
            simp at hany
          · have hkr : (k, r) = kr := List.mem_singleton.mp h
            rw [List.find?_cons_of_pos _ (by simp [hck]), hkr]
        · exfalso
          have htrue : (seen ++ [kr]).any (fun q => decide (q.1 = k)) = true :=
            List.any_eq_true.mpr ⟨kr, List.mem_append_right _ (List.mem_singleton.mpr rfl),
              by simp [hck]⟩
          rw [htrue] at h2
          simp at h2
    · rw [List.find?_cons_of_neg _ (by simp [hck])]
      by_cases hcond : seen.any (fun q => decide (q.1 = kr.1)) = true
      · rw [if_pos hcond] at hp
        exact seenGo_first rest seen k r hp hany
      · rw [if_neg hcond] at hp
        refine seenGo_first rest (seen ++ [kr]) k r hp ?_
        rw [List.any_append, hany]
        simp [hck]

theorem seenGo_keys_distinct {κ ρ : Type} [DecidableEq κ] :
    ∀ (l seen : List (κ × ρ)), seen.Pairwise (fun a b => a.1 ≠ b.1) →
      (seenGo seen l).Pairwise (fun a b => a.1 ≠ b.1)
  | [], _, h => h
  | kr :: rest, seen, h => by
    simp only [seenGo]
    by_cases hcond : seen.any (fun q => decide (q.1 = kr.1)) = true
    · rw [if_pos hcond]
      exact seenGo_keys_distinct rest seen h
    · rw [if_neg hcond]
      have hfalse : seen.any (fun q => decide (q.1 = kr.1)) = false :=
        Bool.eq_false_iff.mpr hcond
      refine seenGo_keys_distinct rest (seen ++ [kr]) ?_
      refine List.pairwise_append.mpr ⟨h, List.pairwise_singleton _ _, ?_⟩
      intro a ha b hb
      have hb' : b = kr := List.mem_singleton.mp hb
      intro heq
      have htrue : seen.any (fun q => decide (q.1 = kr.1)) = true :=
        List.any_eq_true.mpr ⟨a, ha, by simp [hb' ▸ heq]⟩
      rw [htrue] at hfalse
      simp at hfalse

theorem enumFrom_find?_snd {ρ : Type} (q : ρ → Bool) :
    ∀ (l : List ρ) (n : Nat),
      ((List.enumFrom n l).find? (fun ir => q ir.2)).map Prod.snd = l.find? q
  | [], _ => rfl
  | a :: l, n => by
    simp only [List.enumFrom]
    by_cases hq : q a = true
    · rw [List.find?_cons_of_pos _ (by simpa using hq), List.find?_cons_of_pos _ hq]
      rfl
    · rw [List.find?_cons_of_neg _ (by simpa using hq), List.find?_cons_of_neg _ hq]
      exact enumFrom_find?_snd q l (n + 1)

theorem actDedupKey_inl {ir : Nat × ActivityRec} {s : String} :
    actDedupKey ir = Sum.inl s ↔ ir.2.id = some s := by
  unfold actDedupKey
  rcases h : ir.2.id with _ | t
  · simp
  · simp

theorem fbDedupKey_inl {ir : Nat × FeedbackRec} {t : Int} :
    fbDedupKey ir = Sum.inl t ↔ ir.2.created_time = some t := by
  unfold fbDedupKey
  rcases h : ir.2.created_time with _ | c
  · simp
  · simp

theorem dedupActivities_pairwise (l : List ActivityRec) :
    (dedupActivities l).Pairwise actKeyDistinct := by
  unfold dedupActivities
  have hd : (seenGo [] (l.enum.map (fun ir => (actDedupKey ir, ir.2)))).Pairwise
      (fun a b => a.1 ≠ b.1) :=
    seenGo_keys_distinct _ [] List.Pairwise.nil
  have hwf : ∀ p ∈ seenGo [] (l.enum.map (fun ir => (actDedupKey ir, ir.2))),
      ∀ s, p.2.id = some s → p.1 = Sum.inl s := by
    intro p hp s hps
    rcases seenGo_mem _ [] p hp with h | ⟨h1, _⟩
    · simp at h
    · rcases List.mem_map.mp h1 with ⟨ir, _, hfir⟩
      rw [← hfir]
      rw [← hfir] at hps
      exact actDedupKey_inl.mpr hps
  refine List.pairwise_map.mpr (List.Pairwise.imp_of_mem ?_ hd)
  intro a b ha hb hne s has hbs
  exact hne (by rw [hwf a ha s has, hwf b hb s hbs])

theorem dedupFeedback_pairwise (l : List FeedbackRec) :
    (dedupFeedback l).Pairwise fbKeyDistinct := by
  unfold dedupFeedback
  have hd : (seenGo [] (l.enum.map (fun ir => (fbDedupKey ir, ir.2)))).Pairwise
      (fun a b => a.1 ≠ b.1) :=
    seenGo_keys_distinct _ [] List.Pairwise.nil
  have hwf : ∀ p ∈ seenGo [] (l.enum.map (fun ir => (fbDedupKey ir, ir.2))),
      ∀ t, p.2.created_time = some t → p.1 = Sum.inl t := by
    intro p hp t hpt
    rcases seenGo_mem _ [] p hp with h | ⟨h1, _⟩
    · simp at h
    · rcases List.mem_map.mp h1 with ⟨ir, _, hfir⟩
      rw [← hfir]
      rw [← hfir] at hpt
      exact fbDedupKey_inl.mpr hpt
  refine List.pairwise_map.mpr (List.Pairwise.imp_of_mem ?_ hd)
  intro a b ha hb hne t hat hbt
  exact hne (by rw [hwf a ha t hat, hwf b hb t hbt])

theorem dedupActivities_first_wins (l : List ActivityRec) (r : ActivityRec)
    (s : String) (hr : r ∈ dedupActivities l) (hs : r.id = some s) :
    l.find? (fun x => decide (x.id = some s)) = some r := by
  unfold dedupActivities at hr
  rcases List.mem_map.mp hr with ⟨p, hp, hpr⟩
  have hp1 : p.1 = Sum.inl s := by
    rcases seenGo_mem _ [] p hp with h | ⟨h1, _⟩
    · simp at h
    · rcases List.mem_map.mp h1 with ⟨ir, _, hfir⟩
      rw [← hfir]
      refine actDedupKey_inl.mpr ?_
      have hir : ir.2 = p.2 := by rw [← hfir]
      rw [hir, hpr]
      exact hs
  have hfind := seenGo_first _ [] p.1 p.2 (by rwa [Prod.mk.eta]) rfl
  rw [hp1] at hfind
  have hpred : (fun (q : Sum String Nat × ActivityRec) => decide (q.1 = Sum.inl s)) ∘
      (fun ir => (actDedupKey ir, ir.2)) = fun ir => decide (ir.2.id = some s) := by
    funext ir
    simp only [Function.comp_apply]
    exact decide_eq_decide.mpr actDedupKey_inl
  have hmap : List.find? (fun q => decide (q.1 = Sum.inl s))
        (l.enum.map (fun ir => (actDedupKey ir, ir.2)))
      = (l.enum.find? ((fun q => decide (q.1 = Sum.inl s)) ∘
          (fun ir => (actDedupKey ir, ir.2)))).map (fun ir => (actDedupKey ir, ir.2)) :=
    List.find?_map (fun ir => (actDedupKey ir, ir.2)) l.enum
  rw [hfind, hpred] at hmap
  rcases hfe : l.enum.find? (fun ir => decide (ir.2.id = some s)) with _ | ir0
  · rw [hfe] at hmap
    exact absurd hmap (by simp)
  · rw [hfe, Option.map_some'] at hmap
    have hir0 : ir0.2 = p.2 := (congrArg Prod.snd (Option.some.inj hmap)).symm
    have hsnd : (l.enum.find? (fun ir => decide (ir.2.id = some s))).map Prod.snd
        = l.find? (fun x => decide (x.id = some s)) :=
      enumFrom_find?_snd (fun x => decide (x.id = some s)) l 0
    rw [hfe, Option.map_some'] at hsnd
    rw [← hsnd, hir0, hpr]

theorem dedupFeedback_first_wins (l : List FeedbackRec) (r : FeedbackRec)
    (t : Int) (hr : r ∈ dedupFeedback l) (ht : r.created_time = some t) :
    l.find? (fun x => decide (x.created_time = some t)) = some r := by
  unfold dedupFeedback at hr
  rcases List.mem_map.mp hr with ⟨p, hp, hpr⟩
  have hp1 : p.1 = Sum.inl t := by
    rcases seenGo_mem _ [] p hp with h | ⟨h1, _⟩
    · simp at h
    · rcases List.mem_map.mp h1 with ⟨ir, _, hfir⟩
      rw [← hfir]
      refine fbDedupKey_inl.mpr ?_
      have hir : ir.2 = p.2 := by rw [← hfir]
      rw [hir, hpr]
      exact ht
  have hfind := seenGo_first _ [] p.1 p.2 (by rwa [Prod.mk.eta]) rfl
  rw [hp1] at hfind
  have hpred : (fun (q : Sum Int Nat × FeedbackRec) => decide (q.1 = Sum.inl t)) ∘
      (fun ir => (fbDedupKey ir, ir.2)) = fun ir => decide (ir.2.created_time = some t) := by
    funext ir
    simp only [Function.comp_apply]
    exact decide_eq_decide.mpr fbDedupKey_inl
  have hmap : List.find? (fun q => decide (q.1 = Sum.inl t))
        (l.enum.map (fun ir => (fbDedupKey ir, ir.2)))
      = (l.enum.find? ((fun q => decide (q.1 = Sum.inl t)) ∘
          (fun ir => (fbDedupKey ir, ir.2)))).map (fun ir => (fbDedupKey ir, ir.2)) :=
    List.find?_map (fun ir => (fbDedupKey ir, ir.2)) l.enum
  rw [hfind, hpred] at hmap
  rcases hfe : l.enum.find? (fun ir => decide (ir.2.created_time = some t)) with _ | ir0
  · rw [hfe] at hmap
    exact absurd hmap (by simp)
  · rw [hfe, Option.map_some'] at hmap
    have hir0 : ir0.2 = p.2 := (congrArg Prod.snd (Option.some.inj hmap)).symm
    have hsnd : (l.enum.find? (fun ir => decide (ir.2.created_time = some t))).map Prod.snd
        = l.find? (fun x => decide (x.created_time = some t)) :=
      enumFrom_find?_snd (fun x => decide (x.created_time = some t)) l 0
    rw [hfe, Option.map_some'] at hsnd
    rw [← hsnd, hir0, hpr]

theorem actKeyDistinct_symm : ∀ {a b : ActivityRec},
    actKeyDistinct a b → actKeyDistinct b a := by
  intro a b h s hbs has
  exact h s has hbs

theorem fbKeyDistinct_symm : ∀ {a b : FeedbackRec},
    fbKeyDistinct a b → fbKeyDistinct b a := by
  intro a b h t hbt hat
  exact h t hat hbt

theorem finalizeActivities_pairwise (store : Store String ActivityRec)
    (acc : List ActivityRec) (limit : Nat) :
    (finalizeActivities store acc limit).2.list.Pairwise actKeyDistinct := by
  simp only [finalizeActivities]
  have hsorted : (sortDescBy actSortKey (dedupActivities acc)).Pairwise actKeyDistinct :=
    (dedupActivities_pairwise acc).perm
      (List.mergeSort_perm _ _).symm (fun h => actKeyDistinct_symm h)
  by_cases hl : limit ≠ 0
  · rw [if_pos hl]
    exact hsorted.sublist (List.take_sublist _ _)
  · rw [if_neg hl]
    exact hsorted

theorem finalizeFeedback_pairwise (store : Store Int FeedbackRec)
    (acc : List FeedbackRec) :
    (finalizeFeedback store acc).2.rows.Pairwise fbKeyDistinct :=
  (dedupFeedback_pairwise acc).perm
    (List.mergeSort_perm _ _).symm (fun h => fbKeyDistinct_symm h)

end LikesCache

/-- **C4.** In cache-enabled mode, the list returned by the fetch
orchestrator never contains two records sharing an identity key — for
activities (id) and feedback (created_time) alike, whatever the cached
records and whatever every API call returns; and the final dedup keeps the
first occurrence of each key from the combined cached-then-fresh stream. -/
theorem fetch_never_returns_duplicate_keys :
    (∀ (api : Int → Int → Nat → Except Unit ActResp)
        (store : Store String ActivityRec) (today : Int) (now : String)
        (startOpt endOpt : Option Int) (limit : Nat),
        (fetch_activities api store today now startOpt endOpt limit false).2.list.Pairwise
          actKeyDistinct)
    ∧ (∀ (api : Int → Int → Except Unit (RowsResp FeedbackRec))
        (store : Store Int FeedbackRec) (today : Int) (now : String)
        (startOpt endOpt : Option Int),
        (fetch_feedback api store today now startOpt endOpt false).2.rows.Pairwise
          fbKeyDistinct)
    ∧ (∀ (l : List ActivityRec) (r : ActivityRec) (s : String),
        r ∈ dedupActivities l → r.id = some s →
        l.find? (fun x => decide (x.id = some s)) = some r)
    ∧ (∀ (l : List FeedbackRec) (r : FeedbackRec) (t : Int),
        r ∈ dedupFeedback l → r.created_time = some t →
        l.find? (fun x => decide (x.created_time = some t)) = some r) := by
  refine ⟨fun api store today now startOpt endOpt limit => ?_,
    fun api store today now startOpt endOpt => ?_,
    dedupActivities_first_wins, dedupFeedback_first_wins⟩
  · exact finalizeActivities_pairwise _ _ _
  · rcases startOpt with _ | s
    · exact List.Pairwise.nil
    · rcases endOpt with _ | e
      · exact List.Pairwise.nil
      · exact finalizeFeedback_pairwise _ _

/-- Witness for C4 at a concrete input: deduplicating two activities that
share id `"a1"` keeps the first; the kept record is the first occurrence. -/
theorem fetch_never_returns_duplicate_keys_witness :
    [{ id := some "a1", sign_date := some 5 : ActivityRec },
     { id := some "a1", sign_date := some 9 : ActivityRec }].find?
        (fun x => decide (x.id = some "a1"))
      = some { id := some "a1", sign_date := some 5 : ActivityRec } :=
  fetch_never_returns_duplicate_keys.2.2.1
    [{ id := some "a1", sign_date := some 5 }, { id := some "a1", sign_date := some 9 }]
    { id := some "a1", sign_date := some 5 } "a1" (by decide) (by decide)

/-! # C8: backfill chunk bound with a horizon -/

namespace LikesCache

theorem backfillGo_attempts_le (ep : Endpoint)
    (actApi : Int → Int → Nat → Except Unit ActResp)
    (fbApi : Int → Int → Except Unit (RowsResp FeedbackRec))
    (plansApi : Int → Except Unit (RowsResp PlanRec))
    (today : Int) (months : Option Nat) (now : String) :
    ∀ (idxs : List Nat) (st : CacheState) (streak : Nat),
      (backfillGo actApi fbApi plansApi today months now ep idxs st streak).2.1.length
        ≤ idxs.length := by
  intro idxs
  induction idxs with
  | nil =>
    intro st streak
    simp [backfillGo]
  | cons i rest ih =>
    intro st streak
    cases ep
    all_goals
      simp only [backfillGo]
      repeat' split
      all_goals
        first
        | exact Nat.zero_le _
        | exact Nat.succ_le_succ (Nat.zero_le _)
        | exact Nat.succ_le_succ (ih _ _)

theorem chunkDaysNat_pos (ep : Endpoint) : 1 ≤ chunkDaysNat ep := by
  cases ep <;> decide

end LikesCache

/-- **C8.** With a month-bound horizon of `m ≥ 1` months (`horizon_days =
m * 30`), the backfill loop attempts at most
`⌈horizon_days / chunk_days⌉ + 1` chunks regardless of the empty-streak
state (the loop range is `m * 30 // chunk_days + 1 ≤ ⌈...⌉ + 1`); in
particular with `months = 2` and chunk size 30 at most 4 chunks are
attempted. -/
theorem backfill_bounded_chunks (ep : Endpoint)
    (actApi : Int → Int → Nat → Except Unit ActResp)
    (fbApi : Int → Int → Except Unit (RowsResp FeedbackRec))
    (plansApi : Int → Except Unit (RowsResp PlanRec))
    (today : Int) (m : Nat) (now : String) (st : CacheState) (hm : 1 ≤ m) :
    (backfill ep actApi fbApi plansApi today (some m) now st).2.1.length
      ≤ (m * 30 + chunkDaysNat ep - 1) / chunkDaysNat ep + 1
    ∧ (m = 2 → chunkDaysNat ep = 30 →
        (backfill ep actApi fbApi plansApi today (some m) now st).2.1.length ≤ 4) := by
  have hmg : monthsGiven (some m) = true := by
    simp only [monthsGiven, bne_iff_ne, ne_eq]
    omega
  have hlen : (backfill ep actApi fbApi plansApi today (some m) now st).2.1.length
      ≤ m * 30 / chunkDaysNat ep + 1 := by
    unfold backfill
    rw [hmg]
    calc (backfillGo actApi fbApi plansApi today (some m) now ep
            (List.range ((some m).getD 0 * 30 / chunkDaysNat ep + 1)) st 0).2.1.length
        ≤ (List.range ((some m).getD 0 * 30 / chunkDaysNat ep + 1)).length :=
          backfillGo_attempts_le ep actApi fbApi plansApi today (some m) now _ st 0
      _ = m * 30 / chunkDaysNat ep + 1 := by rw [List.length_range, Option.getD_some]
  have hc := chunkDaysNat_pos ep
  constructor
  · refine le_trans hlen (Nat.add_le_add_right ?_ 1)
    exact Nat.div_le_div_right (by omega)
  · intro hm2 hcd
    refine le_trans hlen ?_
    subst hm2
    rw [hcd]
    decide

/-- Witness for C8 at concrete inputs: backfilling activities with
`months = 2` against a down API attempts at most the bound. -/
theorem backfill_bounded_chunks_witness :
    (backfill Endpoint.activities actApiDown fbApiDown plansApiDown 20000 (some 2) "t"
        emptyCacheState).2.1.length
      ≤ (2 * 30 + chunkDaysNat Endpoint.activities - 1) / chunkDaysNat Endpoint.activities
          + 1 :=
  (backfill_bounded_chunks Endpoint.activities actApiDown fbApiDown plansApiDown 20000 2 "t"
    emptyCacheState (by decide)).1

/-! # C9: empty-streak auto-stop -/

namespace LikesCache

theorem backfillGo_all_nonempty
    (actApi : Int → Int → Nat → Except Unit ActResp)
    (fbApi : Int → Int → Except Unit (RowsResp FeedbackRec))
    (plansApi : Int → Except Unit (RowsResp PlanRec))
    (today : Int) (now : String)
    (hact : ∀ s e, ∃ data, actApi s e 100 = .ok data ∧ data.list ≠ []) :
    ∀ (idxs : List Nat) (st : CacheState),
      (backfillGo actApi fbApi plansApi today none now .activities idxs st 0).2.1 = idxs
      ∧ (backfillGo actApi fbApi plansApi today none now .activities idxs st 0).2.2.1 = 0
      ∧ (backfillGo actApi fbApi plansApi today none now .activities idxs st 0).2.2.2
          = .exhausted
  | [], st => ⟨rfl, rfl, rfl⟩
  | i :: rest, st => by
    have ih := backfillGo_all_nonempty actApi fbApi plansApi today now hact rest
    simp only [backfillGo]
    rw [if_neg (by simp [monthsGiven])]
    split
    · exact ⟨by rw [(ih st).1], (ih st).2.1, (ih st).2.2⟩
    · split
      · rename_i e heq
        obtain ⟨data, hok, hne⟩ := hact _ _
        rw [heq] at hok
        exact absurd hok (by simp)
      · rename_i data heq
        obtain ⟨data2, hok, hne⟩ := hact _ _
        rw [heq] at hok
        have hdd : data = data2 := Except.ok.inj hok
        subst hdd
        have hlen : ¬ data.list.length = 0 := by simpa using hne
        simp only [if_neg hlen]
        rw [if_neg (by simp [BACKFILL_EMPTY_STOP, monthsGiven])]
        exact ⟨by rw [(ih _).1], (ih _).2.1, (ih _).2.2⟩

theorem backfillGo_streak_stop (ep : Endpoint)
    (actApi : Int → Int → Nat → Except Unit ActResp)
    (fbApi : Int → Int → Except Unit (RowsResp FeedbackRec))
    (plansApi : Int → Except Unit (RowsResp PlanRec))
    (today : Int) (now : String)
    (hact : ∀ s e l, actApi s e l ≠ .error ())
    (hfb : ∀ s e, fbApi s e ≠ .error ())
    (hpl : ∀ s, plansApi s ≠ .error ()) :
    ∀ (idxs : List Nat) (st : CacheState) (streak : Nat), streak ≤ 5 →
      ((backfillGo actApi fbApi plansApi today none now ep idxs st streak).2.2.2
          = .exhausted
        ∨ (backfillGo actApi fbApi plansApi today none now ep idxs st streak).2.2.2
          = .emptyStreak)
      ∧ ((backfillGo actApi fbApi plansApi today none now ep idxs st streak).2.2.2
          = .emptyStreak →
        (backfillGo actApi fbApi plansApi today none now ep idxs st streak).2.2.1 = 6)
  | [], st, streak, hs => by
    cases ep <;> exact ⟨Or.inl rfl, fun h => StopReason.noConfusion h⟩
  | i :: rest, st, streak, hs => by
    have ih := backfillGo_streak_stop ep actApi fbApi plansApi today now hact hfb hpl rest
    cases ep with
    | activities =>
      simp only [backfillGo]
      rw [if_neg (by simp [monthsGiven])]
      split
      · exact ih st streak hs
      · split
        · rename_i e heq
          cases e
          exact absurd heq (hact _ _ 100)
        · rename_i data heq
          by_cases hl : data.list.length = 0
          · simp only [if_pos hl]
            by_cases hstop : BACKFILL_EMPTY_STOP ≤ streak + 1
            · rw [if_pos (by simp [monthsGiven, hstop])]
              refine ⟨Or.inr rfl, fun _ => ?_⟩
              show streak + 1 = 6
              simp only [BACKFILL_EMPTY_STOP] at hstop
              omega
            · rw [if_neg (by simp [monthsGiven, hstop])]
              exact ih _ (streak + 1)
                (by simp only [BACKFILL_EMPTY_STOP] at hstop; omega)
          · simp only [if_neg hl]
            rw [if_neg (by simp [monthsGiven, BACKFILL_EMPTY_STOP])]
            exact ih _ 0 (by omega)
    | feedback =>
      simp only [backfillGo]
      rw [if_neg (by simp [monthsGiven])]
      split
      · exact ih st streak hs
      · split
        · rename_i e heq
          cases e
          exact absurd heq (hfb _ _)
        · rename_i data heq
          by_cases hl : data.rows.length = 0
          · simp only [if_pos hl]
            by_cases hstop : BACKFILL_EMPTY_STOP ≤ streak + 1
            · rw [if_pos (by simp [monthsGiven, hstop])]
              refine ⟨Or.inr rfl, fun _ => ?_⟩
              show streak + 1 = 6
              simp only [BACKFILL_EMPTY_STOP] at hstop
              omega
            · rw [if_neg (by simp [monthsGiven, hstop])]
              exact ih _ (streak + 1)
                (by simp only [BACKFILL_EMPTY_STOP] at hstop; omega)
          · simp only [if_neg hl]
            rw [if_neg (by simp [monthsGiven, BACKFILL_EMPTY_STOP])]
            exact ih _ 0 (by omega)
    | plans =>
      simp only [backfillGo]
      rw [if_neg (by simp [monthsGiven])]
      split
      · rename_i e heq
        cases e
        exact absurd heq (hpl _)
      · rename_i data heq
        by_cases hl : data.rows.length = 0
        · simp only [if_pos hl]
          by_cases hstop : BACKFILL_EMPTY_STOP ≤ streak + 1
          · rw [if_pos (by simp [monthsGiven, hstop])]
            refine ⟨Or.inr rfl, fun _ => ?_⟩
            show streak + 1 = 6
            simp only [BACKFILL_EMPTY_STOP] at hstop
            omega
          · rw [if_neg (by simp [monthsGiven, hstop])]
            exact ih _ (streak + 1)
              (by simp only [BACKFILL_EMPTY_STOP] at hstop; omega)
        · simp only [if_neg hl]
          rw [if_neg (by simp [monthsGiven, BACKFILL_EMPTY_STOP])]
          exact ih _ 0 (by omega)

end LikesCache

set_option maxRecDepth 4000 in
/-- Counterexample to C9 as stated: with no horizon and an API that succeeds
on every call and never returns zero records, the backfill loop still stops
— after exhausting the hard cap of 999 chunks — although the consecutive-
empty count never left 0, contradicting "stops exactly when the count
reaches 6". -/
theorem backfill_stops_at_cap_without_empty_streak :
    (backfill Endpoint.activities actApiOneRecord fbApiEmpty plansApiEmpty 20000 none "t"
        emptyCacheState).2.1.length = 999
    ∧ (backfill Endpoint.activities actApiOneRecord fbApiEmpty plansApiEmpty 20000 none "t"
        emptyCacheState).2.2.1 = 0
    ∧ (backfill Endpoint.activities actApiOneRecord fbApiEmpty plansApiEmpty 20000 none "t"
        emptyCacheState).2.2.2 = StopReason.exhausted := by
  have h := backfillGo_all_nonempty actApiOneRecord fbApiEmpty plansApiEmpty 20000 "t"
    (fun s e => ⟨⟨1, [{ id := some "a1", sign_date := some 1000 }]⟩, rfl, by simp⟩)
    (List.range 999) emptyCacheState
  have h1 : (backfill Endpoint.activities actApiOneRecord fbApiEmpty plansApiEmpty 20000
      none "t" emptyCacheState).2.1 = List.range 999 := h.1
  refine ⟨by rw [h1, List.length_range], h.2.1, h.2.2⟩

/-- **C9 (amended).** With no horizon and every API call succeeding, the
backfill loop stops through the empty-streak rule exactly when the count of
consecutive empty chunks reaches 6, never earlier — the only other way the
run ends is by exhausting the hard cap of 999 chunks. -/
theorem backfill_no_horizon_streak_stop (ep : Endpoint)
    (actApi : Int → Int → Nat → Except Unit ActResp)
    (fbApi : Int → Int → Except Unit (RowsResp FeedbackRec))
    (plansApi : Int → Except Unit (RowsResp PlanRec))
    (today : Int) (now : String) (st : CacheState)
    (hact : ∀ s e l, actApi s e l ≠ .error ())
    (hfb : ∀ s e, fbApi s e ≠ .error ())
    (hpl : ∀ s, plansApi s ≠ .error ()) :
    ((backfill ep actApi fbApi plansApi today none now st).2.2.2 = StopReason.exhausted
      ∨ (backfill ep actApi fbApi plansApi today none now st).2.2.2
          = StopReason.emptyStreak)
    ∧ ((backfill ep actApi fbApi plansApi today none now st).2.2.2
          = StopReason.emptyStreak →
        (backfill ep actApi fbApi plansApi today none now st).2.2.1
          = BACKFILL_EMPTY_STOP) :=
  backfillGo_streak_stop ep actApi fbApi plansApi today now hact hfb hpl
    (List.range 999) st 0 (by omega)

/-- Witness for C9 (amended) at concrete inputs: with an always-empty API
and no horizon, the run ends by cap exhaustion or by the streak rule, and in
the latter case the final streak is exactly 6. -/
theorem backfill_no_horizon_streak_stop_witness :
    ((backfill Endpoint.activities actApiEmpty fbApiEmpty plansApiEmpty 20000 none "t"
        emptyCacheState).2.2.2 = StopReason.exhausted
      ∨ (backfill Endpoint.activities actApiEmpty fbApiEmpty plansApiEmpty 20000 none "t"
        emptyCacheState).2.2.2 = StopReason.emptyStreak)
    ∧ ((backfill Endpoint.activities actApiEmpty fbApiEmpty plansApiEmpty 20000 none "t"
        emptyCacheState).2.2.2 = StopReason.emptyStreak →
      (backfill Endpoint.activities actApiEmpty fbApiEmpty plansApiEmpty 20000 none "t"
        emptyCacheState).2.2.1 = BACKFILL_EMPTY_STOP) :=
  backfill_no_horizon_streak_stop Endpoint.activities actApiEmpty fbApiEmpty plansApiEmpty
    20000 "t" emptyCacheState
    (fun s e l h => by simp [actApiEmpty] at h)
    (fun s e h => by simp [fbApiEmpty] at h)
    (fun s h => by simp [plansApiEmpty] at h)
